import Mathlib

/-!
Verification development for the rhinoceros epidemic simulator.

The Python source (rhinoceros.py) is shallowly embedded here:

* Python dicts (which iterate in insertion order) are modelled as
  association lists, with lookup, in-place value update (aset: updates the
  first occurrence in place, appends at the end when the key is new,
  exactly like a dict assignment) and deletion (aerase).
* Python sets whose iteration order is never observed by the core
  (susceptible, recovered) are modelled as Finset.
* The networkx undirected graph is modelled as an adjacency association
  list (node, ordered neighbor list), mirroring the adjacency dicts of
  networkx; edge removal deletes the endpoint from both neighbor lists
  and silently skips absent edges; edge addition inserts missing nodes
  and appends the endpoint to both neighbor lists when absent, exactly
  as networkx add_edge / remove_edge behave at the membership level.
* The process-wide random source (random.random) and the two duration
  samplers of Disease are modelled as explicit state transformers over an
  abstract state type, threaded in the evaluation order of the source.
* Python round (round-half-to-even on the exact value) is pyRound.
* Machine floats of the source are modelled as exact rationals.

Functions keep the names of the source. simulate_day is not defined in
the source (it is an injected callable); where a claim needs the
canonical per-day step it is modelled from the spec, and the driver
simulate_cancelled_events is proved for an arbitrary injected step.
-/

namespace Rhinoceros

/-! ### Association lists modelling Python dicts -/

def alookup {α : Type} (k : ℕ) : List (ℕ × α) → Option α
  | [] => none
  | (k1, v) :: rest => if k1 = k then some v else alookup k rest

def aset {α : Type} (k : ℕ) (v : α) : List (ℕ × α) → List (ℕ × α)
  | [] => [(k, v)]
  | (k1, v1) :: rest => if k1 = k then (k1, v) :: rest else (k1, v1) :: aset k v rest

def aerase {α : Type} (k : ℕ) : List (ℕ × α) → List (ℕ × α)
  | [] => []
  | (k1, v1) :: rest => if k1 = k then rest else (k1, v1) :: aerase k rest

def mapAt (k : ℕ) (f : List ℕ → List ℕ) : List (ℕ × List ℕ) → List (ℕ × List ℕ)
  | [] => []
  | (k1, v) :: rest => if k1 = k then (k1, f v) :: rest else (k1, v) :: mapAt k f rest

/-! ### The contact network (networkx graph) -/

structure Network where
  adj : List (ℕ × List ℕ)
deriving DecidableEq

def Network.neighborsOf (g : Network) (u : ℕ) : List ℕ :=
  (alookup u g.adj).getD []

def Network.nodesList (g : Network) : List ℕ :=
  g.adj.map Prod.fst

def Network.degree (g : Network) (u : ℕ) : ℕ :=
  (g.neighborsOf u).length

def Network.hasEdge (g : Network) (u v : ℕ) : Prop :=
  v ∈ g.neighborsOf u

instance (g : Network) (u v : ℕ) : Decidable (g.hasEdge u v) := by
  unfold Network.hasEdge; infer_instance

def Network.removeEdge (g : Network) (u v : ℕ) : Network :=
  if v ∈ g.neighborsOf u then
    ⟨mapAt v (List.filter (fun x => x ≠ u)) (mapAt u (List.filter (fun x => x ≠ v)) g.adj)⟩
  else g

def Network.remove_edges_from (g : Network) : List (ℕ × ℕ) → Network
  | [] => g
  | (u, v) :: rest => (g.removeEdge u v).remove_edges_from rest

def Network.ensureNode (g : Network) (u : ℕ) : Network :=
  match alookup u g.adj with
  | some _ => g
  | none => ⟨g.adj ++ [(u, [])]⟩

def Network.addEdge (g : Network) (u v : ℕ) : Network :=
  let g2 := (g.ensureNode u).ensureNode v
  ⟨mapAt v (fun l => if u ∈ l then l else l ++ [u])
    (mapAt u (fun l => if v ∈ l then l else l ++ [v]) g2.adj)⟩

def Network.add_edges_from (g : Network) : List (ℕ × ℕ) → Network
  | [] => g
  | (u, v) :: rest => (g.addEdge u v).add_edges_from rest

/-- Well-formedness of an undirected networkx graph: every adjacency entry is
mirrored at the other endpoint. Stated over the entry list so that it is
decidable on concrete networks. -/
def Network.symmetric (g : Network) : Prop :=
  ∀ pr ∈ g.adj, ∀ y ∈ pr.2, pr.1 ∈ g.neighborsOf y

instance (g : Network) : Decidable g.symmetric := by
  unfold Network.symmetric; infer_instance

/-- Well-formedness: no self loops. -/
def Network.loopless (g : Network) : Prop :=
  ∀ pr ∈ g.adj, pr.1 ∉ pr.2

instance (g : Network) : Decidable g.loopless := by
  unfold Network.loopless; infer_instance

/-! ### Population, Disease, Monitor -/

structure Population where
  network : Network
  susceptible : Finset ℕ
  incubating : List (ℕ × ℤ)
  sick : List (ℕ × ℤ)
  recovered : Finset ℕ
deriving DecidableEq

def Population.reset (p : Population) : Population :=
  { p with
    susceptible := p.network.nodesList.toFinset
    incubating := []
    sick := []
    recovered := ∅ }

structure Disease (σ : Type) where
  contagiousness : ℚ
  duration_incubation : σ → ℚ × σ
  duration_sickness : σ → ℚ × σ

structure Monitor where
  day : List ℕ
  susceptible : List ℕ
  incubating : List ℕ
  sick : List ℕ
deriving DecidableEq

def Monitor.record (m : Monitor) (d : ℕ) (p : Population) : Monitor :=
  { day := m.day ++ [d]
    susceptible := m.susceptible ++ [p.susceptible.card]
    incubating := m.incubating ++ [p.incubating.length]
    sick := m.sick ++ [p.sick.length] }

/-! ### Python round: round-half-to-even on the exact value.
The fractional part r of q satisfies r = (q.num - floor * q.den) / q.den with
q.den positive, so r compares to one half exactly as twice its numerator
compares to the denominator; this keeps the definition in integer
arithmetic. -/

def pyRound (q : ℚ) : ℤ :=
  let f : ℤ := q.num.fdiv q.den
  let r2 : ℤ := 2 * (q.num - f * q.den)
  if r2 < (q.den : ℤ) then f
  else if (q.den : ℤ) < r2 then f + 1
  else if f % 2 = 0 then f else f + 1

/-! ### The daily update functions of the source -/

def contagionPass {σ : Type} (contag : ℚ) (rand : σ → ℚ × σ) :
    List ℕ → Finset ℕ → List ℕ → σ → Finset ℕ × List ℕ × σ
  | [], susc, nc, s => (susc, nc, s)
  | person :: rest, susc, nc, s =>
    if person ∈ susc then
      let x := rand s
      if x.1 ≤ contag then
        contagionPass contag rand rest (susc.erase person) (nc ++ [person]) x.2
      else contagionPass contag rand rest susc nc x.2
    else contagionPass contag rand rest susc nc s

def incubationLoop {σ : Type} (g : Network) (contag : ℚ) (rand : σ → ℚ × σ) :
    List (ℕ × ℤ) → Finset ℕ → List (ℕ × ℤ) → List ℕ → List ℕ → σ →
      Finset ℕ × List (ℕ × ℤ) × List ℕ × List ℕ × σ
  | [], susc, incub, nc, ns, s => (susc, incub, nc, ns, s)
  | (cse, days) :: rest, susc, incub, nc, ns, s =>
    let r := contagionPass contag rand (g.neighborsOf cse) susc nc s
    if days = 0 then
      incubationLoop g contag rand rest r.1 incub r.2.1 (ns ++ [cse]) r.2.2
    else
      incubationLoop g contag rand rest r.1 (aset cse (days - 1) incub) r.2.1 ns r.2.2

def update_incubations {σ : Type} (pop : Population) (dis : Disease σ)
    (rand : σ → ℚ × σ) (s : σ) : (List ℕ × List ℕ) × Population × σ :=
  let r := incubationLoop pop.network dis.contagiousness rand
    pop.incubating pop.susceptible pop.incubating [] [] s
  ((r.2.2.1, r.2.2.2.1),
   { pop with susceptible := r.1, incubating := r.2.1 },
   r.2.2.2.2)

def sicknessLoop : List (ℕ × ℤ) → List (ℕ × ℤ) → List ℕ → List (ℕ × ℤ) × List ℕ
  | [], sick, nr => (sick, nr)
  | (cse, days) :: rest, sick, nr =>
    if days = 0 then sicknessLoop rest sick (nr ++ [cse])
    else sicknessLoop rest (aset cse (days - 1) sick) nr

def update_sicknesses (pop : Population) : List ℕ × Population :=
  let r := sicknessLoop pop.sick pop.sick []
  (r.2, { pop with sick := r.1 })

def commitSick {σ : Type} (dis : Disease σ) :
    List ℕ → List (ℕ × ℤ) → List (ℕ × ℤ) → σ → List (ℕ × ℤ) × List (ℕ × ℤ) × σ
  | [], incub, sick, s => (incub, sick, s)
  | cse :: rest, incub, sick, s =>
    let d := dis.duration_incubation s
    commitSick dis rest (aerase cse incub) (aset cse (pyRound d.1) sick) d.2

def commitContam {σ : Type} (dis : Disease σ) :
    List ℕ → List (ℕ × ℤ) → σ → List (ℕ × ℤ) × σ
  | [], incub, s => (incub, s)
  | cse :: rest, incub, s =>
    let d := dis.duration_sickness s
    commitContam dis rest (aset cse (pyRound d.1) incub) d.2

def commitRecover : List ℕ → List (ℕ × ℤ) → Finset ℕ → List (ℕ × ℤ) × Finset ℕ
  | [], sick, rcv => (sick, rcv)
  | cse :: rest, sick, rcv => commitRecover rest (aerase cse sick) (insert cse rcv)

def update_population {σ : Type} (pop : Population) (dis : Disease σ)
    (new_contaminations new_sicknesses new_recoveries : List ℕ) (s : σ) :
    Population × σ :=
  let a := commitSick dis new_sicknesses pop.incubating pop.sick s
  let b := commitContam dis new_contaminations a.1 a.2.2
  let c := commitRecover new_recoveries a.2.1 pop.recovered
  ({ pop with incubating := b.1, sick := c.1, recovered := c.2 }, b.2)

/-- Modelled from the spec: the source injects simulate_day as a callable and
does not define it; the spec's StepEngine composes the three stages of one
simulated day in order: contagion plus incubation progress, sickness
progress, then the commit of all marked transitions. -/
def simulate_day {σ : Type} (dis : Disease σ) (rand : σ → ℚ × σ)
    (st : Population × σ) : Population × σ :=
  let a := update_incubations st.1 dis rand st.2
  let b := update_sicknesses a.2.1
  update_population b.2 dis a.1.1 a.1.2 b.1 a.2.2

/-! ### The intervention policy -/

def cancelNeighbors (person : ℕ) (n min_connections : ℕ) :
    List ℕ → ℕ → List (ℕ × ℕ)
  | [], _ => []
  | nbr :: rest, i =>
    if (n : ℤ) - (i : ℤ) ≤ (min_connections : ℤ) then []
    else (person, nbr) :: cancelNeighbors person n min_connections rest (i + 1)

def cancelLoop (max_size min_connections : ℕ) : List (ℕ × List ℕ) → List (ℕ × ℕ)
  | [] => []
  | (person, nbrs) :: rest =>
    (if max_size ≤ nbrs.length
      then cancelNeighbors person nbrs.length min_connections nbrs 0
      else [])
    ++ cancelLoop max_size min_connections rest

def connections_to_cancel (g : Network) (max_size : ℕ)
    (min_connections : ℕ := 5) : List (ℕ × ℕ) :=
  cancelLoop max_size min_connections g.adj

/-! ### The simulation driver -/

def seedLoop : List (ℕ × ℤ) → List (ℕ × ℤ) → List (ℕ × ℤ)
  | [], m => m
  | (cse, v) :: rest, m => seedLoop rest (aset cse v m)

def initialState (pop : Population) (initial_cases : List (ℕ × ℤ)) : Population :=
  let pr := pop.reset
  { pr with incubating := seedLoop initial_cases pr.incubating }

def runDays {σ : Type} (f : Population × σ → Population × σ) :
    List ℕ → Monitor × Population × σ → Monitor × Population × σ
  | [], x => x
  | d :: rest, (m, st) => runDays f rest (m.record d st.1, f st)

def simulate_cancelled_events {σ : Type} (pop : Population) (max_size : ℕ)
    (f : Population × σ → Population × σ) (initial_cases : List (ℕ × ℤ))
    (delay ndays : ℕ) (s : σ) : Monitor × Population × σ :=
  let p0 := initialState pop initial_cases
  let a := runDays f (List.range delay) (⟨[], [], [], []⟩, (p0, s))
  let cc := connections_to_cancel a.2.1.network max_size 5
  let st2 : Population × σ :=
    ({ a.2.1 with network := a.2.1.network.remove_edges_from cc }, a.2.2)
  let b := runDays f (List.range' delay (ndays - delay)) (a.1, st2)
  (b.1, { b.2.1 with network := b.2.1.network.add_edges_from cc }, b.2.2)

/-- The state entering day i of a run: for days before the intervention delay
it is the i-th iterate of the step from the seeded state; from day delay on,
the cancelled connections (computed on the network as it stands after phase A)
have been removed before stepping continues. -/
def enteringState {σ : Type} (f : Population × σ → Population × σ) (max_size : ℕ)
    (st0 : Population × σ) (delay i : ℕ) : Population × σ :=
  if i < delay then f^[i] st0
  else
    let stA := f^[delay] st0
    let cc := connections_to_cancel stA.1.network max_size 5
    f^[i - delay] ({ stA.1 with network := stA.1.network.remove_edges_from cc }, stA.2)

def recordAll (ms : List (ℕ × Population)) (m : Monitor) : Monitor :=
  ms.foldl (fun acc pr => acc.record pr.1 pr.2) m

/-! ### Concrete fixtures used by witnesses and counterexamples -/

def popOf (g : Network) : Population := ⟨g, ∅, [], [], ∅⟩

/-- A deterministic stand-in for the process-wide uniform sampler: every draw
returns one, which exceeds a contagion probability of zero. -/
def unitRand : Unit → ℚ × Unit := fun _ => (1, ())

/-- A disease with contagion probability zero and duration samplers that
always return zero. -/
def zeroDisease : Disease Unit := ⟨0, fun _ => (0, ()), fun _ => (0, ())⟩

def stepZero : Population × Unit → Population × Unit :=
  simulate_day zeroDisease unitRand

def net1 : Network := ⟨[(0, [])]⟩

def net2 : Network := ⟨[(0, [1]), (1, [0])]⟩

/-- Two adjacent over-connected nodes, each with one private neighbor; node 0
lists node 2 first, node 1 lists node 0 first. -/
def netC4 : Network := ⟨[(0, [2, 1]), (1, [0, 3]), (2, [0]), (3, [1])]⟩

/-- A star on ten nodes, centered at node 0. -/
def netStar10 : Network :=
  ⟨[(0, [1, 2, 3, 4, 5, 6, 7, 8, 9]), (1, [0]), (2, [0]), (3, [0]), (4, [0]),
    (5, [0]), (6, [0]), (7, [0]), (8, [0]), (9, [0])]⟩

/-- A disease that always transmits (contagion probability one). -/
def oneDisease : Disease Unit := ⟨1, fun _ => (0, ()), fun _ => (0, ())⟩

/-- A two-node population with node 0 incubating and node 1 susceptible. -/
def popC8 : Population := ⟨net2, {1}, [(0, 5)], [], ∅⟩

/-! ### Association-list lemmas -/

theorem alookup_aset_self {α : Type} (k : ℕ) (v : α) (l : List (ℕ × α)) :
    alookup k (aset k v l) = some v := by
  induction l with
  | nil => simp [aset, alookup]
  | cons hd tl ih =>
    obtain ⟨k1, v1⟩ := hd
    by_cases h : k1 = k <;> simp [aset, alookup, h, ih]

theorem aset_keys_of_mem {α : Type} (k : ℕ) (v : α) (l : List (ℕ × α))
    (h : k ∈ l.map Prod.fst) : (aset k v l).map Prod.fst = l.map Prod.fst := by
  induction l with
  | nil => simp at h
  | cons hd tl ih =>
    obtain ⟨k1, v1⟩ := hd
    by_cases hk : k1 = k
    · simp [aset, hk]
    · rw [List.map_cons, List.mem_cons] at h
      rcases h with h | h
      · exact absurd h.symm hk
      · simp [aset, hk, ih h]

theorem mem_keys_aset {α : Type} (k k1 : ℕ) (v : α) (l : List (ℕ × α))
    (h : k1 ∈ l.map Prod.fst) : k1 ∈ (aset k v l).map Prod.fst := by
  induction l with
  | nil => simp at h
  | cons hd tl ih =>
    obtain ⟨k2, v2⟩ := hd
    by_cases hk : k2 = k
    · simpa [aset, hk] using h
    · rw [List.map_cons, List.mem_cons] at h
      rcases h with h | h
      · simp [aset, hk, h]
      · rw [show aset k v ((k2, v2) :: tl) = (k2, v2) :: aset k v tl by
          simp [aset, hk]]
        rw [List.map_cons, List.mem_cons]
        exact Or.inr (ih h)

/-! ### Claim C9: Monitor.record appends one entry to each list -/

theorem recordAll_spec (ms : List (ℕ × Population)) (m : Monitor) :
    recordAll ms m =
      ⟨m.day ++ ms.map Prod.fst,
       m.susceptible ++ ms.map (fun x => x.2.susceptible.card),
       m.incubating ++ ms.map (fun x => x.2.incubating.length),
       m.sick ++ ms.map (fun x => x.2.sick.length)⟩ := by
  induction ms generalizing m with
  | nil => simp [recordAll]
  | cons hd tl ih =>
    obtain ⟨d, p⟩ := hd
    simp [recordAll, List.foldl_cons, Monitor.record] at ih ⊢
    rw [ih]
    simp

/-- C9: each call to Monitor.record appends exactly one element to each of the
four lists, so a Monitor built by a sequence of record calls from the empty
Monitor has four lists of equal length, whose i-th entries are the day and the
three group sizes passed at the i-th record call. -/
theorem monitor_record_appends (m : Monitor) (d : ℕ) (p : Population)
    (ms : List (ℕ × Population)) :
    ((m.record d p).day = m.day ++ [d] ∧
     (m.record d p).susceptible = m.susceptible ++ [p.susceptible.card] ∧
     (m.record d p).incubating = m.incubating ++ [p.incubating.length] ∧
     (m.record d p).sick = m.sick ++ [p.sick.length]) ∧
    ((recordAll ms ⟨[], [], [], []⟩).day = ms.map Prod.fst ∧
     (recordAll ms ⟨[], [], [], []⟩).susceptible
        = ms.map (fun x => x.2.susceptible.card) ∧
     (recordAll ms ⟨[], [], [], []⟩).incubating
        = ms.map (fun x => x.2.incubating.length) ∧
     (recordAll ms ⟨[], [], [], []⟩).sick
        = ms.map (fun x => x.2.sick.length)) := by
  refine ⟨⟨rfl, rfl, rfl, rfl⟩, ?_⟩
  rw [recordAll_spec]
  simp

/-! ### Claim C10: update_sicknesses only rewrites sick counters -/

theorem sicknessLoop_keys (entries sick : List (ℕ × ℤ)) (nr : List ℕ)
    (h : ∀ k ∈ entries.map Prod.fst, k ∈ sick.map Prod.fst) :
    (sicknessLoop entries sick nr).1.map Prod.fst = sick.map Prod.fst := by
  induction entries generalizing sick nr with
  | nil => simp [sicknessLoop]
  | cons hd tl ih =>
    obtain ⟨c, d⟩ := hd
    by_cases hd0 : d = 0
    · simp only [sicknessLoop, hd0, if_pos rfl]
      exact ih sick _ (fun k hk => h k (by simp [hk]))
    · simp only [sicknessLoop, if_neg hd0]
      have hc : c ∈ sick.map Prod.fst := h c (by simp)
      rw [ih (aset c (d - 1) sick) nr
        (fun k hk => mem_keys_aset c k (d - 1) sick (h k (by simp [hk])))]
      exact aset_keys_of_mem c (d - 1) sick hc

/-- C10: update_sicknesses modifies only the counters stored in the sick
mapping: the susceptible set, the incubating mapping, the recovered set, the
key set of the sick mapping, and the contact network are unchanged. -/
theorem update_sicknesses_frame (pop : Population) :
    (update_sicknesses pop).2.susceptible = pop.susceptible ∧
    (update_sicknesses pop).2.incubating = pop.incubating ∧
    (update_sicknesses pop).2.recovered = pop.recovered ∧
    (update_sicknesses pop).2.network = pop.network ∧
    (update_sicknesses pop).2.sick.map Prod.fst = pop.sick.map Prod.fst := by
  refine ⟨rfl, rfl, rfl, rfl, ?_⟩
  exact sicknessLoop_keys pop.sick pop.sick [] (fun k hk => hk)

/-! ### Claim C6: the duration samplers are cross-wired -/

/-- C6: when update_population commits a case that transitions from incubating
to sick, the new remaining-sickness counter is the rounded output of the
duration_incubation sampler, and when it commits a newly contaminated node,
the new remaining-incubation counter is the rounded output of the
duration_sickness sampler (drawn after the sickness commit advanced the
random state): the two samplers are used cross-wired relative to their
names. -/
theorem update_population_cross_wired (σ : Type) (pop : Population)
    (dis : Disease σ) (s : σ) (p c : ℕ) :
    alookup c (update_population pop dis [p] [c] [] s).1.sick
        = some (pyRound (dis.duration_incubation s).1) ∧
    alookup p (update_population pop dis [p] [c] [] s).1.incubating
        = some (pyRound (dis.duration_sickness (dis.duration_incubation s).2).1) ∧
    (update_population pop dis [p] [c] [] s).2
        = (dis.duration_sickness (dis.duration_incubation s).2).2 := by
  refine ⟨?_, ?_, rfl⟩
  · simp [update_population, commitSick, commitContam, commitRecover,
      alookup_aset_self]
  · simp [update_population, commitSick, commitContam, commitRecover,
      alookup_aset_self]

/-! ### Claim C2: shape of the recorded monitor -/

theorem runDays_spec (σ : Type) (f : Population × σ → Population × σ)
    (ds : List ℕ) (m : Monitor) (st : Population × σ) :
    runDays f ds (m, st) =
      (⟨m.day ++ ds,
        m.susceptible
          ++ (List.range ds.length).map (fun j => (f^[j] st).1.susceptible.card),
        m.incubating
          ++ (List.range ds.length).map (fun j => (f^[j] st).1.incubating.length),
        m.sick
          ++ (List.range ds.length).map (fun j => (f^[j] st).1.sick.length)⟩,
       f^[ds.length] st) := by
  induction ds generalizing m st with
  | nil => simp [runDays]
  | cons d rest ih =>
    rw [runDays, ih (m.record d st.1) (f st)]
    simp only [Monitor.record, List.length_cons, List.range_succ_eq_map,
      List.map_cons, List.map_map, Function.iterate_zero_apply,
      Function.iterate_succ_apply, Function.comp]
    simp [List.append_assoc, Function.iterate_succ_apply]

theorem entering_lt (σ : Type) (f : Population × σ → Population × σ)
    (max_size : ℕ) (st0 : Population × σ) (delay i : ℕ) (h : i < delay) :
    enteringState f max_size st0 delay i = f^[i] st0 := by
  simp [enteringState, h]

theorem entering_ge (σ : Type) (f : Population × σ → Population × σ)
    (max_size : ℕ) (st0 : Population × σ) (delay i : ℕ) (h : ¬ i < delay) :
    enteringState f max_size st0 delay i =
      f^[i - delay]
        ({ (f^[delay] st0).1 with
            network := (f^[delay] st0).1.network.remove_edges_from
              (connections_to_cancel (f^[delay] st0).1.network max_size 5) },
         (f^[delay] st0).2) := by
  simp [enteringState, h]

/-- C2 amended: the monitor returned by simulate_cancelled_events records one
entry per day 0 .. max delay ndays − 1 (so exactly ndays entries only when
delay ≤ ndays: when delay exceeds ndays the pre-intervention loop still runs
its full delay days), and the i-th recorded counts are those of the state
entering day i, before that day's transition is applied. -/
theorem simulate_cancelled_events_monitor_spec (σ : Type) (pop : Population)
    (max_size : ℕ) (f : Population × σ → Population × σ)
    (ic : List (ℕ × ℤ)) (delay ndays : ℕ) (s : σ) :
    (simulate_cancelled_events pop max_size f ic delay ndays s).1.day
        = List.range (max delay ndays) ∧
    (simulate_cancelled_events pop max_size f ic delay ndays s).1.susceptible
        = (List.range (max delay ndays)).map (fun i =>
            (enteringState f max_size (initialState pop ic, s) delay i).1.susceptible.card) ∧
    (simulate_cancelled_events pop max_size f ic delay ndays s).1.incubating
        = (List.range (max delay ndays)).map (fun i =>
            (enteringState f max_size (initialState pop ic, s) delay i).1.incubating.length) ∧
    (simulate_cancelled_events pop max_size f ic delay ndays s).1.sick
        = (List.range (max delay ndays)).map (fun i =>
            (enteringState f max_size (initialState pop ic, s) delay i).1.sick.length) := by
  have hmax : max delay ndays = delay + (ndays - delay) := by omega
  have hsplit : List.range (max delay ndays)
      = List.range delay ++ List.range' delay (ndays - delay) := by
    rw [hmax, List.range_eq_range', List.range_eq_range']
    have h := List.range'_append 0 delay (ndays - delay) 1
    simp only [Nat.one_mul, Nat.zero_add] at h
    rw [Nat.add_comm delay (ndays - delay)]
    exact h.symm
  simp only [simulate_cancelled_events]
  rw [runDays_spec, runDays_spec]
  simp only [List.length_range, List.length_range', List.nil_append]
  refine ⟨by rw [hsplit], ?_, ?_, ?_⟩ <;>
  · rw [hsplit, List.map_append]
    congr 1
    · apply List.map_congr_left
      intro i hi
      rw [entering_lt]
      exact List.mem_range.mp hi
    · rw [List.range'_eq_map_range, List.map_map]
      apply List.map_congr_left
      intro j hj
      simp only [Function.comp_apply]
      rw [entering_ge σ f max_size _ delay (delay + j) (by omega)]
      simp

/-! ### Claim C1: the partition invariant fails right after seeding -/

/-- C1: the code violates the partition invariant. Seeding the initial cases
copies them into the incubating mapping without removing them from the
susceptible set, so immediately after seeding (hence at the day-0 boundary of
every run with a nonempty initial_cases) index case 0 belongs to both
susceptible and incubating: the groups are not pairwise disjoint, although
their union does cover the node set. The day-0 monitor record of a run
counts 2 susceptible and 1 incubating on a 2-node network. -/
theorem partition_invariant_fails_after_seeding :
    0 ∈ (initialState (popOf net2) [(0, 4)]).susceptible ∧
    alookup 0 (initialState (popOf net2) [(0, 4)]).incubating = some 4 ∧
    (initialState (popOf net2) [(0, 4)]).susceptible = {0, 1} ∧
    (initialState (popOf net2) [(0, 4)]).incubating = [(0, 4)] ∧
    net2.nodesList = [0, 1] ∧
    (simulate_cancelled_events (popOf net2) 5 stepZero [(0, 4)] 0 1 ()).1.susceptible
        = [2] ∧
    (simulate_cancelled_events (popOf net2) 5 stepZero [(0, 4)] 0 1 ()).1.incubating
        = [1] := by
  refine ⟨by decide, by decide, by decide, by decide, by decide, by decide, by decide⟩

/-! ### Claim C5: recovered is not terminal for a seeded index case -/

/-- C5: the code violates the claim. An index case is seeded into incubating
while staying in susceptible; it then walks incubating, sick, recovered while
remaining in the susceptible set the whole time, so after it enters recovered
it still appears in susceptible for the remainder of the run. Concretely, on
a one-node network with the case seeded at zero remaining incubation days and
zero-valued duration samplers, after three simulated days node 0 is in both
recovered and susceptible. -/
theorem recovered_not_terminal :
    0 ∈ (simulate_cancelled_events (popOf net1) 5 stepZero [(0, 0)] 0 3 ()).2.1.recovered ∧
    0 ∈ (simulate_cancelled_events (popOf net1) 5 stepZero [(0, 0)] 0 3 ()).2.1.susceptible ∧
    (simulate_cancelled_events (popOf net1) 5 stepZero [(0, 0)] 0 3 ()).2.1.incubating = [] ∧
    (simulate_cancelled_events (popOf net1) 5 stepZero [(0, 0)] 0 3 ()).2.1.sick = [] := by
  refine ⟨by decide, by decide, by decide, by decide⟩

/-! ### Claim C2 counterexample: delay larger than ndays -/

/-- C2 counterexample: with delay equal to 2 and ndays equal to 1 the
returned monitor records the two days 0 and 1, not exactly ndays entries and
not only days below ndays, refuting the claim as stated. -/
theorem monitor_length_counterexample :
    (simulate_cancelled_events (popOf net1) 5 stepZero [] 2 1 ()).1.day = [0, 1] ∧
    (simulate_cancelled_events (popOf net1) 5 stepZero [] 2 1 ()).1.day.length ≠ 1 := by
  refine ⟨by decide, by decide⟩

/-! ### Claim C3 counterexample: the published scenario run -/

/-- C3 counterexample: running the scenario (ten nodes, one index case seeded
with 2 remaining incubation days, contagion probability zero, delay 1,
ndays 3) yields susceptible count 10 in every snapshot (the index case is
never removed from susceptible), and the day-2 snapshot still shows the case
incubating with counter 0: the transition to sick happens during day 2 after
the snapshot, so no snapshot shows it sick. -/
theorem scenario_counterexample :
    (simulate_cancelled_events (popOf netStar10) 20 stepZero [(0, 2)] 1 3 ()).1
        = ⟨[0, 1, 2], [10, 10, 10], [1, 1, 1], [0, 0, 0]⟩ ∧
    (simulate_cancelled_events (popOf netStar10) 20 stepZero [(0, 2)] 1 3 ()).1.susceptible
        ≠ [9, 9, 9] ∧
    (simulate_cancelled_events (popOf netStar10) 20 stepZero [(0, 2)] 1 3 ()).1.sick
        ≠ [0, 0, 1] ∧
    (simulate_cancelled_events (popOf netStar10) 20 stepZero [(0, 2)] 1 3 ()).1.incubating
        ≠ [1, 1, 0] := by
  refine ⟨by decide, by decide, by decide, by decide⟩

/-! ### Claim C8: only start-of-day incubating cases transmit -/

theorem contagionPass_nc_sub (σ : Type) (contag : ℚ) (rand : σ → ℚ × σ)
    (l : List ℕ) (susc : Finset ℕ) (nc : List ℕ) (s : σ) (p : ℕ)
    (hp : p ∈ (contagionPass contag rand l susc nc s).2.1) :
    p ∈ nc ∨ p ∈ l := by
  induction l generalizing susc nc s with
  | nil => exact Or.inl hp
  | cons person rest ih =>
    simp only [contagionPass] at hp
    by_cases hmem : person ∈ susc
    · simp only [hmem, if_pos] at hp
      by_cases hdraw : (rand s).1 ≤ contag
      · simp only [hdraw, if_pos] at hp
        rcases ih _ _ _ hp with h | h
        · rcases List.mem_append.mp h with h | h
          · exact Or.inl h
          · simp at h
            simp [h]
        · simp [h]
      · simp only [hdraw, if_neg, not_false_iff] at hp
        rcases ih _ _ _ hp with h | h
        · exact Or.inl h
        · simp [h]
    · simp only [hmem, if_neg, not_false_iff] at hp
      rcases ih _ _ _ hp with h | h
      · exact Or.inl h
      · simp [h]

theorem incubationLoop_nc_sub (σ : Type) (g : Network) (contag : ℚ)
    (rand : σ → ℚ × σ) (items : List (ℕ × ℤ)) (susc : Finset ℕ)
    (incub : List (ℕ × ℤ)) (nc ns : List ℕ) (s : σ) (p : ℕ)
    (hp : p ∈ (incubationLoop g contag rand items susc incub nc ns s).2.2.1) :
    p ∈ nc ∨ ∃ pr ∈ items, p ∈ g.neighborsOf pr.1 := by
  induction items generalizing susc incub nc ns s with
  | nil => exact Or.inl hp
  | cons hd rest ih =>
    obtain ⟨cse, days⟩ := hd
    simp only [incubationLoop] at hp
    by_cases hd0 : days = 0
    · simp only [hd0, if_pos] at hp
      rcases ih _ _ _ _ _ hp with h | ⟨pr, hpr, hnb⟩
      · rcases contagionPass_nc_sub σ contag rand _ _ _ _ _ h with h1 | h1
        · exact Or.inl h1
        · exact Or.inr ⟨(cse, days), by simp, h1⟩
      · exact Or.inr ⟨pr, by simp [hpr], hnb⟩
    · simp only [hd0, if_neg, not_false_iff] at hp
      rcases ih _ _ _ _ _ hp with h | ⟨pr, hpr, hnb⟩
      · rcases contagionPass_nc_sub σ contag rand _ _ _ _ _ h with h1 | h1
        · exact Or.inl h1
        · exact Or.inr ⟨(cse, days), by simp, h1⟩
      · exact Or.inr ⟨pr, by simp [hpr], hnb⟩

/-- C8: every node reported as newly contaminated by update_incubations is a
network neighbor of a case already present in the incubating mapping when the
day started; a node contaminated during the day is never itself a source of
contagion that day. -/
theorem no_same_day_retransmission (σ : Type) (pop : Population)
    (dis : Disease σ) (rand : σ → ℚ × σ) (s : σ) (p : ℕ)
    (hp : p ∈ (update_incubations pop dis rand s).1.1) :
    ∃ cse days, (cse, days) ∈ pop.incubating ∧ p ∈ pop.network.neighborsOf cse := by
  have h := incubationLoop_nc_sub σ pop.network dis.contagiousness rand
    pop.incubating pop.susceptible pop.incubating [] [] s p hp
  rcases h with h | ⟨pr, hpr, hnb⟩
  · simp at h
  · exact ⟨pr.1, pr.2, by simpa using hpr, hnb⟩

/-- Witness for C8: on the two-node network with node 0 incubating and
contagion probability one, node 1 is contaminated on day 0 and the theorem
produces the start-of-day incubating source. -/
theorem no_same_day_retransmission_witness :
    1 ∈ (update_incubations popC8 oneDisease unitRand ()).1.1 ∧
    ∃ cse days, (cse, days) ∈ popC8.incubating ∧ 1 ∈ popC8.network.neighborsOf cse :=
  ⟨by decide, no_same_day_retransmission Unit popC8 oneDisease unitRand () 1 (by decide)⟩

/-! ### Claim C4: what connections_to_cancel actually guarantees -/

theorem cancelNeighbors_eq (person n mc : ℕ) (l : List ℕ) (i : ℕ) :
    cancelNeighbors person n mc l i
      = (l.take (n - mc - i)).map (fun nb => (person, nb)) := by
  induction l generalizing i with
  | nil => simp [cancelNeighbors]
  | cons nbr rest ih =>
    by_cases h : (n : ℤ) - (i : ℤ) ≤ (mc : ℤ)
    · have h0 : n - mc - i = 0 := by omega
      simp [cancelNeighbors, h, h0]
    · have h1 : n - mc - i = (n - mc - (i + 1)) + 1 := by omega
      simp only [cancelNeighbors, h, if_neg, not_false_iff, ih (i + 1), h1,
        List.take_succ_cons, List.map_cons]

theorem alookup_of_mem_nodup {α : Type} (k : ℕ) (v : α) (l : List (ℕ × α))
    (hnd : (l.map Prod.fst).Nodup) (h : (k, v) ∈ l) : alookup k l = some v := by
  induction l with
  | nil => simp at h
  | cons hd tl ih =>
    obtain ⟨k1, v1⟩ := hd
    rw [List.map_cons, List.nodup_cons] at hnd
    rcases List.mem_cons.mp h with h1 | h1
    · cases h1
      simp [alookup]
    · have hk : k1 ≠ k := by
        rintro rfl
        exact hnd.1 (List.mem_map.mpr ⟨(k1, v), h1, rfl⟩)
      simp only [alookup, hk, if_neg, not_false_iff]
      exact ih hnd.2 h1

theorem cancelLoop_mem (ms mc : ℕ) (adj : List (ℕ × List ℕ)) (pr : ℕ × ℕ)
    (h : pr ∈ cancelLoop ms mc adj) :
    ∃ nbrs, (pr.1, nbrs) ∈ adj ∧ ms ≤ nbrs.length ∧ pr.2 ∈ nbrs := by
  induction adj with
  | nil => simp [cancelLoop] at h
  | cons hd rest ih =>
    obtain ⟨person, nbrs⟩ := hd
    simp only [cancelLoop] at h
    rcases List.mem_append.mp h with h1 | h1
    · by_cases hms : ms ≤ nbrs.length
      · rw [if_pos hms, cancelNeighbors_eq] at h1
        obtain ⟨nb, hnb, rfl⟩ := List.mem_map.mp h1
        exact ⟨nbrs, by simp, hms, List.mem_of_mem_take hnb⟩
      · rw [if_neg hms] at h1
        simp at h1
    · obtain ⟨nbrs1, hmem, hge, hin⟩ := ih h1
      exact ⟨nbrs1, by simp [hmem], hge, hin⟩

theorem cancelLoop_filter_nil (ms mc : ℕ) (adj : List (ℕ × List ℕ)) (p : ℕ)
    (h : p ∉ adj.map Prod.fst) :
    (cancelLoop ms mc adj).filter (fun pr => pr.1 = p) = [] := by
  rw [List.filter_eq_nil_iff]
  intro pr hpr
  obtain ⟨nbrs, hmem, _, _⟩ := cancelLoop_mem ms mc adj pr hpr
  simp only [decide_eq_true_eq]
  rintro rfl
  exact h (List.mem_map.mpr ⟨(pr.1, nbrs), hmem, rfl⟩)

theorem cancelLoop_filter (ms mc : ℕ) (adj : List (ℕ × List ℕ))
    (hnd : (adj.map Prod.fst).Nodup) (p : ℕ) (nbrs : List ℕ)
    (h : (p, nbrs) ∈ adj) :
    (cancelLoop ms mc adj).filter (fun pr => pr.1 = p)
      = if ms ≤ nbrs.length
        then (nbrs.take (nbrs.length - mc)).map (fun nb => (p, nb))
        else [] := by
  induction adj with
  | nil => simp at h
  | cons hd rest ih =>
    obtain ⟨q, qn⟩ := hd
    rw [List.map_cons, List.nodup_cons] at hnd
    have hnd1 : (rest.map Prod.fst).Nodup := hnd.2
    have hq : q ∉ rest.map Prod.fst := hnd.1
    simp only [cancelLoop, List.filter_append]
    rcases List.mem_cons.mp h with h1 | h1
    · injection h1 with e1 e2
      subst e1
      subst e2
      rw [cancelLoop_filter_nil ms mc rest p hq, List.append_nil]
      by_cases hms : ms ≤ nbrs.length
      · rw [if_pos hms, if_pos hms, cancelNeighbors_eq, Nat.sub_zero]
        rw [List.filter_eq_self]
        intro pr hpr
        obtain ⟨nb, _, rfl⟩ := List.mem_map.mp hpr
        simp
      · rw [if_neg hms, if_neg hms]
        simp
    · have hqp : q ≠ p := by
        rintro rfl
        exact hq (List.mem_map.mpr ⟨(q, nbrs), h1, rfl⟩)
      rw [ih hnd1 h1]
      have hfil : (if ms ≤ qn.length
          then cancelNeighbors q qn.length mc qn 0 else []).filter
            (fun pr => pr.1 = p) = [] := by
        by_cases hms : ms ≤ qn.length
        · rw [if_pos hms, cancelNeighbors_eq, List.filter_eq_nil_iff]
          intro pr hpr
          obtain ⟨nb, _, rfl⟩ := List.mem_map.mp hpr
          simpa using hqp
        · simp [hms]
      rw [hfil, List.nil_append]

/-- C4 amended: connections_to_cancel never lists a pair whose first component
has degree below max_size; for an individual p of degree at least max_size the
pairs listed with p first are exactly p paired with the earliest
degree − min_connections entries of its neighbor iteration, so at least
min(degree, min_connections) of its incident edges escape cancellation on p's
own account; and every listed pair is an existing edge. Because edges are
undirected, removal of a pair listed for one endpoint still deletes the edge
at the other endpoint, which is how the original claim fails. -/
theorem connections_to_cancel_spec (g : Network) (ms mc : ℕ)
    (hnd : (g.adj.map Prod.fst).Nodup) :
    (∀ pr ∈ connections_to_cancel g ms mc,
        ms ≤ g.degree pr.1 ∧ pr.2 ∈ g.neighborsOf pr.1) ∧
    (∀ (p : ℕ) (nbrs : List ℕ), (p, nbrs) ∈ g.adj → ms ≤ nbrs.length →
        (connections_to_cancel g ms mc).filter (fun pr => pr.1 = p)
          = (nbrs.take (nbrs.length - mc)).map (fun nb => (p, nb))) ∧
    (∀ (p : ℕ) (nbrs : List ℕ), (p, nbrs) ∈ g.adj → nbrs.length < ms →
        (connections_to_cancel g ms mc).filter (fun pr => pr.1 = p) = []) := by
  refine ⟨?_, ?_, ?_⟩
  · intro pr hpr
    obtain ⟨nbrs, hmem, hge, hin⟩ := cancelLoop_mem ms mc g.adj pr hpr
    have hl : alookup pr.1 g.adj = some nbrs := alookup_of_mem_nodup _ _ _ hnd hmem
    constructor
    · simpa [Network.degree, Network.neighborsOf, hl] using hge
    · simpa [Network.neighborsOf, hl] using hin
  · intro p nbrs hmem hms
    rw [connections_to_cancel, cancelLoop_filter ms mc g.adj hnd p nbrs hmem,
      if_pos hms]
  · intro p nbrs hmem hms
    rw [connections_to_cancel, cancelLoop_filter ms mc g.adj hnd p nbrs hmem,
      if_neg (by omega)]

/-- C4 counterexample: on netC4 with max_size 2 and min_connections 1 the
cancellation list is [(0, 2), (1, 0)]; after removing it node 0, of prior
degree 2 ≥ max_size, retains 0 < 1 edges, and node 2, of prior degree
1 < max_size, loses its only edge: both halves of the claim fail. -/
theorem degree_cap_counterexample :
    connections_to_cancel netC4 2 1 = [(0, 2), (1, 0)] ∧
    netC4.degree 0 = 2 ∧
    (netC4.remove_edges_from (connections_to_cancel netC4 2 1)).degree 0 = 0 ∧
    netC4.degree 2 = 1 ∧
    netC4.neighborsOf 2 = [0] ∧
    (netC4.remove_edges_from (connections_to_cancel netC4 2 1)).neighborsOf 2 = [] := by
  refine ⟨by decide, by decide, by decide, by decide, by decide, by decide⟩

/-- Witness for C4: instantiating the amended theorem on netC4 with
max_size 2 and min_connections 1 computes node 0's own contribution. -/
theorem connections_to_cancel_spec_witness :
    (netC4.adj.map Prod.fst).Nodup ∧
    (connections_to_cancel netC4 2 1).filter (fun pr => pr.1 = 0) = [(0, 2)] :=
  ⟨by decide, by
    have h := (connections_to_cancel_spec netC4 2 1 (by decide)).2.1 0 [2, 1]
      (by decide) (by decide)
    simpa using h⟩

/-! ### Claim C7: removing and re-adding the cancelled edges is the identity
on the edge set -/

theorem alookup_mapAt (k k1 : ℕ) (f : List ℕ → List ℕ) (l : List (ℕ × List ℕ)) :
    alookup k (mapAt k1 f l)
      = if k1 = k then (alookup k l).map f else alookup k l := by
  induction l with
  | nil => by_cases h : k1 = k <;> simp [mapAt, alookup, h]
  | cons hd tl ih =>
    obtain ⟨k2, v⟩ := hd
    by_cases h2 : k2 = k1
    · subst h2
      by_cases hk : k2 = k <;> simp [mapAt, alookup, hk]
    · by_cases hk : k2 = k
      · subst hk
        have : k1 ≠ k2 := fun h => h2 h.symm
        simp [mapAt, alookup, h2, this]
      · simp [mapAt, alookup, h2, hk, ih]

theorem alookup_some_mem {α : Type} (k : ℕ) (v : α) (l : List (ℕ × α))
    (h : alookup k l = some v) : (k, v) ∈ l := by
  induction l with
  | nil => simp [alookup] at h
  | cons hd tl ih =>
    obtain ⟨k1, v1⟩ := hd
    by_cases hk : k1 = k
    · subst hk
      simp [alookup] at h
      simp [h]
    · simp only [alookup, hk, if_neg, not_false_iff] at h
      exact List.mem_cons_of_mem _ (ih h)

theorem Network.sym_of (g : Network) (h : g.symmetric) :
    ∀ x y, y ∈ g.neighborsOf x → x ∈ g.neighborsOf y := by
  intro x y hy
  unfold Network.neighborsOf at hy
  cases hl : alookup x g.adj with
  | none => rw [hl] at hy; simp at hy
  | some l =>
    rw [hl] at hy
    exact h (x, l) (alookup_some_mem x l g.adj hl) y hy

theorem Network.loopless_of (g : Network) (h : g.loopless) :
    ∀ x, x ∉ g.neighborsOf x := by
  intro x hx
  unfold Network.neighborsOf at hx
  cases hl : alookup x g.adj with
  | none => rw [hl] at hx; simp at hx
  | some l =>
    rw [hl] at hx
    exact h (x, l) (alookup_some_mem x l g.adj hl) hx

theorem neighborsOf_some (g : Network) (u : ℕ) (v : ℕ)
    (h : v ∈ g.neighborsOf u) : alookup u g.adj = some (g.neighborsOf u) := by
  unfold Network.neighborsOf at h ⊢
  cases hl : alookup u g.adj with
  | none => rw [hl] at h; simp at h
  | some l => simp

theorem removeEdge_mem (g : Network) (u v a b : ℕ) (huv : u ≠ v)
    (hsym : ∀ x y, y ∈ g.neighborsOf x → x ∈ g.neighborsOf y) :
    b ∈ (g.removeEdge u v).neighborsOf a
      ↔ b ∈ g.neighborsOf a ∧ ¬((a = u ∧ b = v) ∨ (a = v ∧ b = u)) := by
  unfold Network.removeEdge
  by_cases hmem : v ∈ g.neighborsOf u
  · rw [if_pos hmem]
    have hlu : alookup u g.adj = some (g.neighborsOf u) := neighborsOf_some g u v hmem
    simp only [Network.neighborsOf, alookup_mapAt]
    rcases eq_or_ne a u with rfl | hau
    · have hva : ¬(v = a) := fun h => huv h.symm
      rw [if_neg hva, if_pos rfl, hlu]
      simp [List.mem_filter, huv]
    · rcases eq_or_ne a v with rfl | hav
      · have hua : ¬(u = a) := fun h => hau h.symm
        rw [if_pos rfl, if_neg hua]
        cases hla : alookup a g.adj with
        | none => simp
        | some la => simp [List.mem_filter, hau]
      · have hua : ¬(u = a) := fun h => hau h.symm
        have hva : ¬(v = a) := fun h => hav h.symm
        rw [if_neg hva, if_neg hua]
        simp [hau, hav]
  · rw [if_neg hmem]
    constructor
    · intro h
      refine ⟨h, ?_⟩
      rintro (⟨rfl, rfl⟩ | ⟨rfl, rfl⟩)
      · exact hmem h
      · exact hmem (hsym _ _ h)
    · exact fun h => h.1

theorem removeEdge_sym (g : Network) (u v : ℕ) (huv : u ≠ v)
    (hsym : ∀ x y, y ∈ g.neighborsOf x → x ∈ g.neighborsOf y) :
    ∀ x y, y ∈ (g.removeEdge u v).neighborsOf x
      → x ∈ (g.removeEdge u v).neighborsOf y := by
  intro x y h
  rw [removeEdge_mem g u v x y huv hsym] at h
  rw [removeEdge_mem g u v y x huv hsym]
  exact ⟨hsym _ _ h.1, fun hm => h.2 (by tauto)⟩

theorem remove_edges_from_mem (es : List (ℕ × ℕ)) (g : Network)
    (hne : ∀ pr ∈ es, pr.1 ≠ pr.2)
    (hsym : ∀ x y, y ∈ g.neighborsOf x → x ∈ g.neighborsOf y) (a b : ℕ) :
    b ∈ (g.remove_edges_from es).neighborsOf a
      ↔ b ∈ g.neighborsOf a
        ∧ ∀ pr ∈ es, ¬((a = pr.1 ∧ b = pr.2) ∨ (a = pr.2 ∧ b = pr.1)) := by
  induction es generalizing g with
  | nil => simp [Network.remove_edges_from]
  | cons hd rest ih =>
    obtain ⟨u, v⟩ := hd
    have huv : u ≠ v := hne (u, v) (by simp)
    rw [Network.remove_edges_from,
      ih (g.removeEdge u v) (fun pr hpr => hne pr (by simp [hpr]))
        (removeEdge_sym g u v huv hsym),
      removeEdge_mem g u v a b huv hsym]
    simp only [List.forall_mem_cons]
    tauto

theorem alookup_append_some {α : Type} (k : ℕ) (v : α) (l1 l2 : List (ℕ × α))
    (h : alookup k l1 = some v) : alookup k (l1 ++ l2) = some v := by
  induction l1 with
  | nil => simp [alookup] at h
  | cons hd tl ih =>
    obtain ⟨k1, v1⟩ := hd
    by_cases hk : k1 = k
    · simp only [alookup, hk, if_pos] at h ⊢
      exact h
    · simp only [List.cons_append, alookup, hk, if_neg, not_false_iff] at h ⊢
      exact ih h

theorem alookup_append_none {α : Type} (k : ℕ) (l1 l2 : List (ℕ × α))
    (h : alookup k l1 = none) : alookup k (l1 ++ l2) = alookup k l2 := by
  induction l1 with
  | nil => simp
  | cons hd tl ih =>
    obtain ⟨k1, v1⟩ := hd
    by_cases hk : k1 = k
    · simp [alookup, hk] at h
    · simp only [List.cons_append, alookup, hk, if_neg, not_false_iff] at h ⊢
      exact ih h

theorem ensure_lookup_self (g : Network) (u : ℕ) :
    alookup u (g.ensureNode u).adj = some (g.neighborsOf u) := by
  unfold Network.ensureNode Network.neighborsOf
  cases h : alookup u g.adj with
  | none =>
    simp only [h, Option.getD_none]
    exact (alookup_append_none u g.adj [(u, [])] h).trans (by simp [alookup])
  | some l => simp [h]

theorem ensure_lookup_other (g : Network) (u a : ℕ) (hau : a ≠ u) :
    alookup a (g.ensureNode u).adj = alookup a g.adj := by
  have hua : ¬(u = a) := fun h => hau h.symm
  unfold Network.ensureNode
  cases h : alookup u g.adj with
  | none =>
    cases ha : alookup a g.adj with
    | none =>
      rw [alookup_append_none a g.adj [(u, [])] ha]
      simp [alookup, hua]
    | some la => exact alookup_append_some a la g.adj [(u, [])] ha
  | some l => rfl

theorem ensure_nbr (g : Network) (u a : ℕ) :
    (g.ensureNode u).neighborsOf a = g.neighborsOf a := by
  by_cases hau : a = u
  · subst hau
    unfold Network.neighborsOf
    rw [ensure_lookup_self]
    simp [Network.neighborsOf]
  · unfold Network.neighborsOf
    rw [ensure_lookup_other g u a hau]

theorem mem_appendIf (l : List ℕ) (v b : ℕ) :
    b ∈ (if v ∈ l then l else l ++ [v]) ↔ b ∈ l ∨ b = v := by
  by_cases h : v ∈ l
  · rw [if_pos h]
    constructor
    · exact Or.inl
    · rintro (hb | rfl) <;> assumption
  · rw [if_neg h]
    simp

theorem addEdge_mem (g : Network) (u v a b : ℕ) (huv : u ≠ v) :
    b ∈ (g.addEdge u v).neighborsOf a
      ↔ b ∈ g.neighborsOf a ∨ (a = u ∧ b = v) ∨ (a = v ∧ b = u) := by
  have h2u : alookup u ((g.ensureNode u).ensureNode v).adj
      = some (g.neighborsOf u) := by
    rw [ensure_lookup_other (g.ensureNode u) v u huv, ensure_lookup_self]
  have h2v : alookup v ((g.ensureNode u).ensureNode v).adj
      = some (g.neighborsOf v) := by
    rw [ensure_lookup_self (g.ensureNode u) v, ensure_nbr]
  unfold Network.addEdge
  simp only [Network.neighborsOf, alookup_mapAt]
  rcases eq_or_ne a u with rfl | hau
  · have hva : ¬(v = a) := fun h => huv h.symm
    rw [if_neg hva, if_pos rfl, h2u]
    simp [mem_appendIf, Network.neighborsOf, huv]
  · rcases eq_or_ne a v with rfl | hav
    · have hua : ¬(u = a) := fun h => hau h.symm
      rw [if_pos rfl, if_neg hua, h2v]
      simp [mem_appendIf, Network.neighborsOf, hau]
    · have hua : ¬(u = a) := fun h => hau h.symm
      have hva : ¬(v = a) := fun h => hav h.symm
      rw [if_neg hva, if_neg hua,
        ensure_lookup_other (g.ensureNode u) v a hav,
        ensure_lookup_other g u a hau]
      simp [hau, hav]

theorem add_edges_from_mem (es : List (ℕ × ℕ)) (g : Network)
    (hne : ∀ pr ∈ es, pr.1 ≠ pr.2) (a b : ℕ) :
    b ∈ (g.add_edges_from es).neighborsOf a
      ↔ b ∈ g.neighborsOf a
        ∨ ∃ pr ∈ es, ((a = pr.1 ∧ b = pr.2) ∨ (a = pr.2 ∧ b = pr.1)) := by
  induction es generalizing g with
  | nil => simp [Network.add_edges_from]
  | cons hd rest ih =>
    obtain ⟨u, v⟩ := hd
    have huv : u ≠ v := hne (u, v) (by simp)
    rw [Network.add_edges_from,
      ih (g.addEdge u v) (fun pr hpr => hne pr (by simp [hpr])),
      addEdge_mem g u v a b huv]
    constructor
    · rintro ((h | hm) | ⟨pr, hpr, hm⟩)
      · exact Or.inl h
      · exact Or.inr ⟨(u, v), by simp, hm⟩
      · exact Or.inr ⟨pr, by simp [hpr], hm⟩
    · rintro (h | ⟨pr, hpr, hm⟩)
      · exact Or.inl (Or.inl h)
      · rcases List.mem_cons.mp hpr with rfl | hpr1
        · exact Or.inl (Or.inr hm)
        · exact Or.inr ⟨pr, hpr1, hm⟩

/-- C7: removing the edge list computed by connections_to_cancel and then
re-adding that same list restores exactly the original edge set, viewed as
unordered pairs, on any well-formed network (symmetric adjacency, no self
loops, no duplicate adjacency keys). -/
theorem intervention_roundtrip (g : Network) (ms mc : ℕ)
    (hsym0 : g.symmetric) (hloop : g.loopless)
    (hnd : (g.adj.map Prod.fst).Nodup) (a b : ℕ) :
    ((g.remove_edges_from (connections_to_cancel g ms mc)).add_edges_from
        (connections_to_cancel g ms mc)).hasEdge a b ↔ g.hasEdge a b := by
  have hsym := Network.sym_of g hsym0
  have hirr := Network.loopless_of g hloop
  have hedge : ∀ pr ∈ connections_to_cancel g ms mc,
      pr.2 ∈ g.neighborsOf pr.1 := by
    intro pr hpr
    obtain ⟨nbrs, hmem, _, hin⟩ := cancelLoop_mem ms mc g.adj pr hpr
    have hl := alookup_of_mem_nodup _ _ _ hnd hmem
    simpa [Network.neighborsOf, hl] using hin
  have hne : ∀ pr ∈ connections_to_cancel g ms mc, pr.1 ≠ pr.2 := by
    intro pr hpr heq
    have h := hedge pr hpr
    rw [← heq] at h
    exact hirr pr.1 h
  rw [Network.hasEdge, Network.hasEdge,
    add_edges_from_mem _ _ hne a b,
    remove_edges_from_mem _ _ hne hsym a b]
  constructor
  · rintro (⟨h1, _⟩ | ⟨pr, hpr, hm⟩)
    · exact h1
    · rcases hm with ⟨rfl, rfl⟩ | ⟨rfl, rfl⟩
      · exact hedge pr hpr
      · exact hsym _ _ (hedge pr hpr)
  · intro h1
    by_cases hm : ∃ pr ∈ connections_to_cancel g ms mc,
        ((a = pr.1 ∧ b = pr.2) ∨ (a = pr.2 ∧ b = pr.1))
    · exact Or.inr hm
    · exact Or.inl ⟨h1, fun pr hpr hmm => hm ⟨pr, hpr, hmm⟩⟩

/-- Witness for C7: on netC4 with max_size 2 and min_connections 1, the edge
between 0 and 2 is cancelled and restored, and the round-trip network again
has that edge. -/
theorem intervention_roundtrip_witness :
    netC4.symmetric ∧ netC4.loopless ∧ (netC4.adj.map Prod.fst).Nodup ∧
    ((netC4.remove_edges_from (connections_to_cancel netC4 2 1)).add_edges_from
        (connections_to_cancel netC4 2 1)).hasEdge 0 2 :=
  ⟨by decide, by decide, by decide,
    (intervention_roundtrip netC4 2 1 (by decide) (by decide) (by decide) 0 2).mpr
      (by decide)⟩

/-! ### Claim C3: the scenario run, as the code actually behaves -/

theorem contagionPass_frozen (σ : Type) (rand : σ → ℚ × σ) (contag : ℚ)
    (hc : contag = 0) (hr : ∀ s1, ¬((rand s1).1 ≤ 0)) (l : List ℕ)
    (susc : Finset ℕ) (nc : List ℕ) (s : σ) :
    (contagionPass contag rand l susc nc s).1 = susc ∧
    (contagionPass contag rand l susc nc s).2.1 = nc := by
  subst hc
  induction l generalizing s with
  | nil => exact ⟨rfl, rfl⟩
  | cons person rest ih =>
    by_cases hmem : person ∈ susc
    · simp only [contagionPass, hmem, if_pos, if_neg (hr s)]
      exact ih (rand s).2
    · simp only [contagionPass, hmem, if_neg, not_false_iff]
      exact ih s

theorem simulate_day_decrement (σ : Type) (dis : Disease σ) (rand : σ → ℚ × σ)
    (hc : dis.contagiousness = 0) (hr : ∀ s1, ¬((rand s1).1 ≤ 0))
    (pop : Population) (c : ℕ) (d : ℤ) (hd : ¬(d = 0))
    (hinc : pop.incubating = [(c, d)]) (hsick : pop.sick = []) (s : σ) :
    ∃ s1, simulate_day dis rand (pop, s)
      = ({ pop with incubating := [(c, d - 1)] }, s1) := by
  have hcp := contagionPass_frozen σ rand dis.contagiousness hc hr
    (pop.network.neighborsOf c) pop.susceptible [] s
  refine ⟨(contagionPass dis.contagiousness rand
      (pop.network.neighborsOf c) pop.susceptible [] s).2.2, ?_⟩
  simp only [simulate_day, update_incubations, hinc, incubationLoop, hd,
    if_neg, not_false_iff, hcp.1, hcp.2, aset, if_pos, update_sicknesses,
    update_population, commitSick, commitContam, commitRecover]
  simp [hsick, sicknessLoop, commitRecover]

theorem simulate_day_to_sick (σ : Type) (dis : Disease σ) (rand : σ → ℚ × σ)
    (hc : dis.contagiousness = 0) (hr : ∀ s1, ¬((rand s1).1 ≤ 0))
    (pop : Population) (c : ℕ) (hinc : pop.incubating = [(c, 0)])
    (hsick : pop.sick = []) (s : σ) :
    ∃ s1 v, simulate_day dis rand (pop, s)
      = ({ pop with incubating := [], sick := [(c, v)] }, s1) := by
  have hcp := contagionPass_frozen σ rand dis.contagiousness hc hr
    (pop.network.neighborsOf c) pop.susceptible [] s
  refine ⟨(dis.duration_incubation ((contagionPass dis.contagiousness rand
      (pop.network.neighborsOf c) pop.susceptible [] s).2.2)).2,
    pyRound ((dis.duration_incubation ((contagionPass dis.contagiousness rand
      (pop.network.neighborsOf c) pop.susceptible [] s).2.2)).1), ?_⟩
  simp only [simulate_day, update_incubations, hinc, incubationLoop,
    if_pos, hcp.1, hcp.2, update_sicknesses, update_population, commitSick,
    commitContam, commitRecover, aerase, aset]
  simp [hsick, sicknessLoop, commitRecover, aset, aerase]

/-- C3 amended: in the published scenario (ten nodes, one index case seeded
with 2 remaining incubation days, contagion probability zero, delay 1,
ndays 3, uniform draws never at or below zero), every snapshot counts 10
susceptible (the index case is seeded into incubating without leaving
susceptible), the incubating count is 1 on days 0, 1 and 2 with the counter
going 2, 1, 0, no snapshot shows a sick case, and the case transitions to
sick only during day 2, after the last snapshot: the run ends with the case
in the sick mapping. -/
theorem scenario_amended (σ : Type) (dis : Disease σ) (rand : σ → ℚ × σ)
    (g : Network) (c : ℕ) (max_size : ℕ) (s : σ)
    (hc : dis.contagiousness = 0)
    (hr : ∀ s1, ¬((rand s1).1 ≤ 0))
    (hnd : g.nodesList.Nodup)
    (hlen : g.nodesList.length = 10)
    (_hcmem : c ∈ g.nodesList) :
    (simulate_cancelled_events (popOf g) max_size (simulate_day dis rand)
        [(c, 2)] 1 3 s).1
      = ⟨[0, 1, 2], [10, 10, 10], [1, 1, 1], [0, 0, 0]⟩ ∧
    (simulate_cancelled_events (popOf g) max_size (simulate_day dis rand)
        [(c, 2)] 1 3 s).2.1.incubating = [] ∧
    (simulate_cancelled_events (popOf g) max_size (simulate_day dis rand)
        [(c, 2)] 1 3 s).2.1.sick.map Prod.fst = [c] ∧
    (simulate_cancelled_events (popOf g) max_size (simulate_day dis rand)
        [(c, 2)] 1 3 s).2.1.susceptible.card = 10 := by
  have hcard : (initialState (popOf g) [(c, 2)]).susceptible.card = 10 := by
    show (g.nodesList.toFinset).card = 10
    rw [List.toFinset_card_of_nodup hnd]
    exact hlen
  obtain ⟨s1, h1⟩ := simulate_day_decrement σ dis rand hc hr
    (initialState (popOf g) [(c, 2)]) c 2 (by norm_num) rfl rfl s
  rw [show (2 : ℤ) - 1 = 1 by norm_num] at h1
  obtain ⟨s2, h2⟩ := simulate_day_decrement σ dis rand hc hr
    ({ { initialState (popOf g) [(c, 2)] with incubating := [(c, 1)] } with
        network := ({ initialState (popOf g) [(c, 2)] with
            incubating := [(c, 1)] } : Population).network.remove_edges_from
          (connections_to_cancel ({ initialState (popOf g) [(c, 2)] with
            incubating := [(c, 1)] } : Population).network max_size 5) })
    c 1 (by norm_num) rfl rfl s1
  rw [show (1 : ℤ) - 1 = 0 by norm_num] at h2
  obtain ⟨s3, v, h3⟩ := simulate_day_to_sick σ dis rand hc hr
    ({ { { initialState (popOf g) [(c, 2)] with incubating := [(c, 1)] } with
        network := ({ initialState (popOf g) [(c, 2)] with
            incubating := [(c, 1)] } : Population).network.remove_edges_from
          (connections_to_cancel ({ initialState (popOf g) [(c, 2)] with
            incubating := [(c, 1)] } : Population).network max_size 5) } with
        incubating := [(c, 0)] })
    c rfl rfl s2
  simp only [simulate_cancelled_events]
  rw [show List.range 1 = [0] by decide, show List.range' 1 (3 - 1) = [1, 2] by decide]
  simp only [runDays]
  rw [h1]
  simp only []
  rw [h2]
  simp only []
  rw [h3]
  refine ⟨?_, by simp, by simp, by simpa using hcard⟩
  simp [Monitor.record, hcard]
  exact ⟨rfl, rfl⟩

/-- Witness for C3: the amended scenario instantiated on the ten-node star
with the index case at the center, contagion probability zero, duration
samplers returning zero and every uniform draw equal to one. -/
theorem scenario_amended_witness :
    zeroDisease.contagiousness = 0 ∧
    netStar10.nodesList.Nodup ∧
    netStar10.nodesList.length = 10 ∧
    (simulate_cancelled_events (popOf netStar10) 20
        (simulate_day zeroDisease unitRand) [(0, 2)] 1 3 ()).1
      = ⟨[0, 1, 2], [10, 10, 10], [1, 1, 1], [0, 0, 0]⟩ :=
  ⟨rfl, by decide, by decide,
    (scenario_amended Unit zeroDisease unitRand netStar10 0 20 () rfl
      (fun _ => of_decide_eq_true rfl) (by decide) (by decide) (by decide)).1⟩

end Rhinoceros
